import Mathlib

/-!
Verification of the Document Indexing & Query Routing Engine of
`faiss_service.py` (NetGuardAI FAISS service).

The source is shallowly embedded: Python strings become `List Char`
(written `Str`), the Python substring test `a in b` becomes a decidable
infix test, Python dicts become association lists in insertion order,
and the mutable per-user vendor memory becomes an explicit
`Str → Option Str` state threaded through `detect_vendors`.

External capabilities (the FAISS similarity search and the preview
language-model call) are parameters of the environment `Env`: a vector
store is modelled by the list of document texts it was built from, and
`Env.sim` is the black-box "k most similar documents" capability.
`re.search(pat, query)` is modelled for metacharacter-free patterns
(the only patterns the service derives: placeholder keys with
underscores replaced by spaces): it finds the pattern as a literal
substring and the matched span is then the pattern itself.  Python
`.*?` placeholder extraction is modelled for newline-free templates.
Knowledge-tree shapes on which the Python service would raise an
exception (a `setup` value that is not a list, a `security` value that
is not a dict of lists) are modelled as contributing no entries.
-/

/-- Python strings, embedded as lists of characters. -/
abbrev Str := List Char

/-- Python `str.lower()` (ASCII-adequate). -/
def lower (s : Str) : Str := s.map Char.toLower

/-- Python `str.strip()`: drop leading and trailing whitespace. -/
def trim (s : Str) : Str :=
  ((s.dropWhile (fun c => c.isWhitespace)).reverse.dropWhile
    (fun c => c.isWhitespace)).reverse

/-- The request normalisation of `query_faiss`:
`data.get("query", "").lower().strip()`. -/
def normalizeQuery (s : Str) : Str := trim (lower s)

/-- Model of the Python `needle in hay` substring test. -/
def containsStr (hay needle : Str) : Bool := decide (needle <:+: hay)

/-- The apostrophe character (U+0027), used inside two fixed messages. -/
def apos : Char := Char.ofNat 39

/-- Python `str.capitalize()`: first character upper-cased, rest lowered. -/
def capitalize (s : Str) : Str :=
  match s with
  | [] => []
  | c :: cs => Char.toUpper c :: lower cs

/-- Python `device_path.split("/")[-1]`. -/
def lastSegment (path : Str) : Str := (path.splitOn '/').getLast?.getD []

/-- Python `"sep".join(xs)`. -/
def joinSep (sep : Str) : List Str → Str
  | [] => []
  | [x] => x
  | x :: y :: xs => x ++ sep ++ joinSep sep (y :: xs)

/-- Fuel-driven core of Python `s.replace(pat, rep)`: scan left to
right, replacing each non-overlapping occurrence of `pat`.  The fuel is
the length of `s`, which always suffices (`replaceAllAux_congr`). -/
def replaceAllAux : Nat → Str → Str → Str → Str
  | 0, s, _, _ => s
  | _ + 1, s, [], _ => s
  | _ + 1, [], _ :: _, _ => []
  | fuel + 1, c :: rest, p :: ps, rep =>
    if (p :: ps).isPrefixOf (c :: rest) then
      rep ++ replaceAllAux fuel (rest.drop ps.length) (p :: ps) rep
    else
      c :: replaceAllAux fuel rest (p :: ps) rep

/-- Python `s.replace(pat, rep)` (all occurrences, left to right). -/
def replaceAll (s pat rep : Str) : Str := replaceAllAux s.length s pat rep

/-- Fuel-driven core of `re.findall(r"\[(.*?)\]", s)`: the contents of
each bracketed placeholder, leftmost non-overlapping, each key running
to the first closing bracket. -/
def extractKeysAux : Nat → Str → List Str
  | 0, _ => []
  | fuel + 1, s =>
    match s with
    | [] => []
    | c :: rest =>
      if c = '[' then
        if (']' : Char) ∈ rest then
          (rest.takeWhile (fun x => x ≠ ']')) ::
            extractKeysAux fuel ((rest.dropWhile (fun x => x ≠ ']')).tail)
        else extractKeysAux fuel rest
      else extractKeysAux fuel rest

/-- The placeholder keys of a command template
(`re.findall(r"\[(.*?)\]", filled)`, newline-free templates). -/
def extractKeys (s : Str) : List Str := extractKeysAux s.length s

/-- The search pattern derived from a placeholder key:
`key.replace("_", " ")`. -/
def patOf (k : Str) : Str := k.map (fun c => if c = '_' then ' ' else c)

/-- The literal bracket token `[key]` of a placeholder key. -/
def tokOf (k : Str) : Str := '[' :: (k ++ [']'])

/-- Model of `re.search(pat, query)` for metacharacter-free patterns:
the leftmost occurrence of `pat` as a literal substring, whose matched
span `group(0)` is `pat` itself. -/
def locate (pat q : Str) : Option Str :=
  if pat <:+: q then some pat else none

/-- One iteration of the placeholder loop of `handle_scenario`:
`filled = filled.replace(f"[{key}]", guess.group(0) if guess else f"[{key}]")`. -/
def fillStep (q s k : Str) : Str :=
  match locate (patOf k) q with
  | some g => replaceAll s (tokOf k) g
  | none => replaceAll s (tokOf k) (tokOf k)

/-- The placeholder-filling loop of `handle_scenario` over one
command template. -/
def fillTemplate (template q : Str) : Str :=
  (extractKeys template).foldl (fun s k => fillStep q s k) template

/-- A raw command entry of the knowledge tree: `name` and `command` are
required keys, `description` and `recommendations` may be absent. -/
structure Cmd where
  name : Str
  description : Option Str
  command : Str
  recommendations : Option Str
deriving DecidableEq

/-- A node of the nested knowledge tree under one vendor: a JSON object
(association list in insertion order) or a list of command entries. -/
inductive JValue where
  | obj (entries : List (Str × JValue))
  | arr (cmds : List Cmd)

/-- A record of the global `all_commands` registry:
`{"vendor": ..., "type": ..., ("level": ...,) "device": ..., **cmd}`. -/
structure Command where
  vendor : Str
  ctype : Str
  level : Option Str
  device : Str
  name : Str
  description : Option Str
  command : Str
  recommendations : Option Str
deriving DecidableEq

/-- The fixed alias table `vendor_mapping` (insertion order). -/
def vendor_mapping : List (Str × Str) :=
  [("cisco".data, "Cisco".data),
   ("juniper".data, "Juniper".data),
   ("palo alto".data, "Palo Alto".data),
   ("fortinet".data, "Fortinet".data),
   ("f5".data, "F5".data)]

/-- The per-user remembered-vendor state `user_contexts`. -/
abbrev Ctx := Str → Option Str

/-- The canonical-name aliases matched in a query, in alias-table order:
`[vendor_mapping[k] for k in vendor_mapping if k in user_query]`. -/
def aliasMatches (q : Str) : List Str :=
  (vendor_mapping.filter (fun kv => containsStr q kv.1)).map (fun kv => kv.2)

/-- Model of `detect_vendors(user_query, user_id)`: alias scan, then remembered
context, then broadcast to all vendors; always overwrites the stored user
context with the head of the returned list (`mentioned[0]`, which
exists because the result is never empty). -/
def detect_vendors (q uid : Str) (ctx : Ctx) : List Str × Ctx :=
  let m0 := aliasMatches q
  let m1 := if m0 = [] then
      (match ctx uid with
       | some v => [v]
       | none => m0)
    else m0
  let m2 := if m1 = [] then vendor_mapping.map (fun kv => kv.2) else m1
  (m2, fun u => if u = uid then m2.head? else ctx u)

/-- The set test `key.lower() in {v.lower() for v in vendor_mapping.values()}`
guarding recursion in `collect_features`. -/
def isVendorKey (k : Str) : Bool :=
  (vendor_mapping.map (fun kv => lower kv.2)).contains (lower k)

/-- The command entries of a tree value; a `setup` value that is not a
list would make the Python iteration raise, modelled as no entries. -/
def cmdListOf : JValue → List Cmd
  | .arr cs => cs
  | .obj _ => []

/-- The object entries of a tree value; a `security` value that is not
a dict would make `.items()` raise, modelled as no entries. -/
def objEntriesOf : JValue → List (Str × JValue)
  | .obj es => es
  | .arr _ => []

/-- Python `None` rendering for an absent optional field in f-strings. -/
def optField (o : Option Str) : Str := o.getD ("None".data)

/-- The `all_commands` record emitted for one `setup` entry. -/
def setupCommand (vendor path : Str) (c : Cmd) : Command :=
  { vendor := vendor, ctype := "setup".data, level := none, device := path,
    name := c.name, description := c.description, command := c.command,
    recommendations := c.recommendations }

/-- The `all_commands` record emitted for one `security` entry. -/
def securityCommand (vendor level path : Str) (c : Cmd) : Command :=
  { vendor := vendor, ctype := "security".data, level := some level,
    device := path, name := c.name, description := c.description,
    command := c.command, recommendations := c.recommendations }

/-- The setup Document text of `collect_features`. -/
def setupDocText (vendor path : Str) (c : Cmd) : Str :=
  "Vendor: ".data ++ vendor ++ "\nDevice: ".data ++ path ++
  "\nType: Setup\nName: ".data ++ c.name ++ "\nDescription: ".data ++
  optField c.description ++ "\nCommand: ".data ++ c.command ++ "\n".data

/-- The security Document text of `collect_features`. -/
def securityDocText (vendor path level : Str) (c : Cmd) : Str :=
  "Vendor: ".data ++ vendor ++ "\nDevice: ".data ++ path ++
  "\nSecurity Level: ".data ++ level ++ "\nName: ".data ++ c.name ++
  "\nDescription: ".data ++ optField c.description ++ "\nCommand: ".data ++
  c.command ++ "\nRecommendations: ".data ++
  (c.recommendations.getD ("None".data)) ++ "\n".data

/-- The mutable accumulators of one `collect_features` walk: the global
command registry and the current vendor setup/security document
lists, each appended at the end in emission order. -/
structure FlatState where
  all_commands : List Command
  setup_docs : List Str
  security_docs : List Str

/-- Emission for the `setup` key of a node. -/
def emitSetupList (vendor path : Str) (cmds : List Cmd) (st : FlatState) :
    FlatState :=
  cmds.foldl (fun st c =>
    { st with
      all_commands := st.all_commands ++ [setupCommand vendor path c],
      setup_docs := st.setup_docs ++ [setupDocText vendor path c] }) st

/-- Emission for the command list of one security level. -/
def emitSecurityList (vendor path level : Str) (cmds : List Cmd)
    (st : FlatState) : FlatState :=
  cmds.foldl (fun st c =>
    { st with
      all_commands := st.all_commands ++ [securityCommand vendor level path c],
      security_docs :=
        st.security_docs ++ [securityDocText vendor path level c] }) st

/-- Emission for the `security` key of a node: one batch per level, in
insertion order. -/
def emitSecurityLevels (vendor path : Str) (levels : List (Str × JValue))
    (st : FlatState) : FlatState :=
  levels.foldl (fun st lv =>
    emitSecurityList vendor path lv.1 (cmdListOf lv.2) st) st

mutual

/-- The recursive walk `collect_features(vendor, subtree, device_path)`:
non-dict nodes return unchanged; a dict node first emits its `setup`
and `security` entries, then walks every child whose key is not
(case-insensitively) a canonical vendor display name, with
`device_path + "/" + key`. -/
def collect_features (vendor : Str) (subtree : JValue) (device_path : Str)
    (st : FlatState) : FlatState :=
  match subtree with
  | .arr _ => st
  | .obj es =>
    let st1 := match List.lookup ("setup".data) es with
      | some v => emitSetupList vendor device_path (cmdListOf v) st
      | none => st
    let st2 := match List.lookup ("security".data) es with
      | some v => emitSecurityLevels vendor device_path (objEntriesOf v) st1
      | none => st1
    collectChildren vendor es device_path st2

/-- The `for key, val in subtree.items()` recursion loop of
`collect_features`. -/
def collectChildren (vendor : Str) (es : List (Str × JValue))
    (device_path : Str) (st : FlatState) : FlatState :=
  match es with
  | [] => st
  | (key, val) :: rest =>
    let st1 := if isVendorKey key then st
      else collect_features vendor val (device_path ++ ('/' :: key)) st
    collectChildren vendor rest device_path st1

end

/-- The per-vendor document maps and global registry of
`build_vendor_docs()`. -/
structure VendorDocs where
  all_commands : List Command
  setup_docs : List (Str × List Str)
  security_docs : List (Str × List Str)

/-- Model of `build_vendor_docs()`: one `collect_features` walk per top-level
vendor, rooted at `device_path = vendor`. -/
def build_vendor_docs (vendors : List (Str × JValue)) : VendorDocs :=
  vendors.foldl (fun acc vd =>
    let st := collect_features vd.1 vd.2 vd.1
      { all_commands := acc.all_commands, setup_docs := [],
        security_docs := [] }
    { all_commands := st.all_commands,
      setup_docs := acc.setup_docs ++ [(vd.1, st.setup_docs)],
      security_docs := acc.security_docs ++ [(vd.1, st.security_docs)] })
    { all_commands := [], setup_docs := [], security_docs := [] }

/-- The store map built by `build_faiss_indexes` for one category: a
vendor with a non-empty document list gets an index (modelled by its
document list), a vendor with an empty list gets `None`, a vendor
absent from the map yields `None` via `.get`. -/
def storeFromDocs (docs : List (Str × List Str)) : Str → Option (List Str) :=
  fun v =>
    match List.lookup v docs with
    | some ds => if ds = [] then none else some ds
    | none => none

/-- Model of `build_faiss_indexes()`: the setup and security store maps. -/
def build_faiss_indexes (dataset_vendors : List (Str × JValue)) :
    (Str → Option (List Str)) × (Str → Option (List Str)) :=
  let docs := build_vendor_docs dataset_vendors
  (storeFromDocs docs.setup_docs, storeFromDocs docs.security_docs)

/-- The vendor-name guard of `generate_feature_list`, which (unlike
`collect_features`) compares against the top-level dataset keys. -/
def isDatasetVendorKey (dsKeys : List Str) (k : Str) : Bool :=
  (dsKeys.map lower).contains (lower k)

/-- The listing block of one level appended by `extract_features`. -/
def appendLevelListing (device_path : Str) (acc : Str) (lv : Str × JValue) :
    Str :=
  let label := lastSegment device_path
  let header := "\n🔐 ".data ++ label ++ " ".data ++
    (if lv.1 ≠ [] then "- ".data ++ capitalize lv.1 ++ " Level".data else []) ++
    ":\n".data
  (cmdListOf lv.2).foldl (fun acc c =>
    acc ++ "- ".data ++ c.name ++ ": ".data ++ optField c.description ++
      "\n".data) (acc ++ header)

mutual

/-- The recursive walk `extract_features(subtree, device_path)` of
`generate_feature_list`: when the node holds the target category key,
append one block per (filter-matching) level; otherwise recurse into
children whose keys are not dataset vendor names. -/
def extract_features (dsKeys : List Str) (feature_type : Str)
    (lf : Option Str) (subtree : JValue) (device_path : Str) (acc : Str) :
    Str :=
  match subtree with
  | .arr _ => acc
  | .obj es =>
    match List.lookup feature_type es with
    | some v =>
      let pairs := if feature_type = "security".data then objEntriesOf v
        else [(([] : Str), v)]
      pairs.foldl (fun acc lv =>
        match lf with
        | some f => if lower lv.1 = f then appendLevelListing device_path acc lv
          else acc
        | none => appendLevelListing device_path acc lv) acc
    | none => extractChildren dsKeys feature_type lf es device_path acc

/-- The `for k, v in subtree.items()` recursion loop of
`extract_features`. -/
def extractChildren (dsKeys : List Str) (feature_type : Str)
    (lf : Option Str) (es : List (Str × JValue)) (device_path : Str)
    (acc : Str) : Str :=
  match es with
  | [] => acc
  | (k, v) :: rest =>
    let acc1 := if isDatasetVendorKey dsKeys k then acc
      else extract_features dsKeys feature_type lf v
        (device_path ++ ('/' :: k)) acc
    extractChildren dsKeys feature_type lf rest device_path acc1

end

/-- Model of `generate_feature_list(vendors_found, feature_type, level_filter)`. -/
def generate_feature_list (dataset_vendors : List (Str × JValue))
    (vendors_found : List Str) (feature_type : Str) (lf : Option Str) :
    Str :=
  let dsKeys := dataset_vendors.map (fun kv => kv.1)
  let body := vendors_found.foldl (fun acc vendor =>
    match List.lookup vendor dataset_vendors with
    | none => acc
    | some sub => extract_features dsKeys feature_type lf sub vendor
        (acc ++ "\n✨ ".data ++ capitalize feature_type ++
          " Features for ".data ++ vendor ++ ":\n".data)) []
  body ++
    "\nWould you like to configure another feature? All commands can be exported if needed.".data

/-- The matcher of `handle_scenario`: the command name or its
description (`cmd.get("description", "")`), lower-cased, occurs in the
(already lower-cased) query. -/
def matchesQuery (q : Str) (cmd : Command) : Bool :=
  containsStr q (lower cmd.name) || containsStr q (lower (cmd.description.getD []))

/-- The name-newline-filled-template entry of one matched command. -/
def scenarioEntry (q : Str) (cmd : Command) : Str :=
  cmd.name ++ ('\n' :: fillTemplate cmd.command q)

/-- The fixed guidance string of `handle_scenario` when nothing matches. -/
def noMatchMsg : Str :=
  "I understood that you".data ++ apos ::
  "re trying to configure something, but I need a bit more detail. Try using keywords like SSH, VLAN, hostname, or IP.".data

/-- The header prepended to the joined matches of `handle_scenario`. -/
def scenarioHeader : Str :=
  "Here are the configuration commands based on your scenario:\n\n".data

/-- Model of `handle_scenario(query)`: fill and collect every matching command
of the registry, or return the fixed guidance string. -/
def handle_scenario (registry : List Command) (q : Str) : Str :=
  let matched := (registry.filter (fun cmd => matchesQuery q cmd)).map
    (fun cmd => scenarioEntry q cmd)
  if matched = [] then noMatchMsg
  else scenarioHeader ++ joinSep ("\n\n".data) matched

/-- The fixed irrelevant-topic keyword list of `query_faiss`. -/
def irrelevant_keywords : List Str :=
  ["joke".data, "weather".data, "powerpoint".data, "excel".data,
   "word".data, "story".data, "open".data, "time".data, "date".data,
   "calendar".data, "meme".data, "music".data, "restaurant".data,
   "movie".data, "tell me".data, "funny".data, "game".data]

/-- The greeting tokens of `query_faiss`. -/
def greeting_tokens : List Str := ["hello".data, "hi".data, "hey".data]

/-- The configuration verbs routed to `handle_scenario`. -/
def config_verbs : List Str :=
  ["set".data, "enable".data, "disable".data, "configure".data]

/-- Whether any word of `ws` occurs in `q`. -/
def hasAny (q : Str) (ws : List Str) : Bool :=
  ws.any (fun w => containsStr q w)

/-- Python `preview_mode = "preview" in user_query or "impact" in user_query`. -/
def previewMode (q : Str) : Bool :=
  containsStr q ("preview".data) || containsStr q ("impact".data)

/-- The scope-reminder message for irrelevant queries. -/
def irrelevantMsg : Str :=
  "⚠️ Sorry, I can only assist you with network setup and security topics related to setting up or securing any of the devices across the 5 platforms".data

/-- The canned greeting reply. -/
def greetingMsg : Str :=
  "Hello! How can I assist you with network setup or security today?".data

/-- The fixed message for an empty retrieval aggregate. -/
def nothingFoundMsg : Str :=
  "Sorry, I couldn".data ++ apos ::
  "t find anything useful for that request.".data

/-- The level filter derived in the `features` branch:
`"advanced" if "advanced" in q else ("basic" if "basic" in q else None)`. -/
def levelFilterOf (q : Str) : Option Str :=
  if containsStr q ("advanced".data) then some ("advanced".data)
  else if containsStr q ("basic".data) then some ("basic".data)
  else none

/-- Python `is_setup = ("setup" in user_query) or ("configure" in user_query)`. -/
def isSetupQuery (q : Str) : Bool :=
  containsStr q ("setup".data) || containsStr q ("configure".data)

/-- The decision taken by the rule chain of `query_faiss` on a
normalized query: each constructor is one `return` site of the
function; `featuresFallthrough` is the `features`-without-category case
in which control continues into the trailing default-retrieval code. -/
inductive Route where
  | irrelevant
  | greeting
  | preview
  | scenarioSynth
  | featuresSecurity
  | featuresSetup
  | featuresFallthrough
  | defaultRetrieval
deriving DecidableEq

/-- The rule chain of `query_faiss`, in source order, first match wins. -/
def classify (q : Str) : Route :=
  if hasAny q irrelevant_keywords then .irrelevant
  else if hasAny q greeting_tokens then .greeting
  else if previewMode q then .preview
  else if hasAny q config_verbs then .scenarioSynth
  else if containsStr q ("features".data) then
    if containsStr q ("security".data) then .featuresSecurity
    else if containsStr q ("setup".data) then .featuresSetup
    else .featuresFallthrough
  else .defaultRetrieval

/-- The process environment of one request: the startup-built state and
the two external capabilities. -/
structure Env where
  sim : List Str → Str → Nat → List Str
  preview : Str → Str
  dataset : List (Str × JValue)
  setup_store : Str → Option (List Str)
  security_store : Str → Option (List Str)
  all_commands : List Command

/-- The contribution of one vendor on the default retrieval path:
`store.similarity_search(user_query, k=5)` when the store exists,
nothing when it is `None` or missing. -/
def searchScope (store : Str → Option (List Str))
    (sim : List Str → Str → Nat → List Str) (q v : Str) : List Str :=
  match store v with
  | some docs => sim docs q 5
  | none => []

/-- The `all_results` aggregate of the default path: the loop
`for vendor in mentioned_vendors: ... all_results.extend(...)`. -/
def aggResults (env : Env) (q : Str) (vendors : List Str) : List Str :=
  vendors.foldl (fun acc v =>
    acc ++ searchScope
      (if isSetupQuery q then env.setup_store else env.security_store)
      env.sim q v) []

/-- The default vector-retrieval path (lines 102-112 of the source):
resolve vendors, pick the category store, aggregate the searches, and
fall back to the fixed message on an empty aggregate. -/
def defaultPath (env : Env) (q uid : Str) (ctx : Ctx) : List Str × Ctx :=
  let d := detect_vendors q uid ctx
  let all_results := aggResults env q d.1
  if all_results = [] then ([nothingFoundMsg], d.2)
  else (all_results, d.2)

/-- Model of `query_faiss`: normalise the query, run the rule chain, and execute
the selected path.  In the `features` branches `detect_vendors` runs
(and updates the context) before the category check, so the fallthrough
case reaches the default path with the already-updated context and runs
`detect_vendors` a second time. -/
def query_faiss (env : Env) (rawQuery uid : Str) (ctx : Ctx) :
    List Str × Ctx :=
  let q := normalizeQuery rawQuery
  match classify q with
  | .irrelevant => ([irrelevantMsg], ctx)
  | .greeting => ([greetingMsg], ctx)
  | .preview => ([env.preview q], ctx)
  | .scenarioSynth => ([handle_scenario env.all_commands q], ctx)
  | .featuresSecurity =>
    let d := detect_vendors q uid ctx
    ([generate_feature_list env.dataset d.1 ("security".data)
        (levelFilterOf q)], d.2)
  | .featuresSetup =>
    let d := detect_vendors q uid ctx
    ([generate_feature_list env.dataset d.1 ("setup".data) none], d.2)
  | .featuresFallthrough =>
    let d := detect_vendors q uid ctx
    defaultPath env q uid d.2
  | .defaultRetrieval => defaultPath env q uid ctx

/-! ### Shared concrete inputs for witnesses and counterexamples -/

/-- A concrete environment: empty dataset and registry, no stores, a
similarity capability returning the whole store, an echoing preview. -/
def exEnv : Env :=
  { sim := fun docs _ _ => docs, preview := fun q => q, dataset := [],
    setup_store := fun _ => none, security_store := fun _ => none,
    all_commands := [] }

/-- A concrete empty user-context state. -/
def exCtx : Ctx := fun _ => none

/-- A concrete user identifier. -/
def exUid : Str := "user1".data

/-- A concrete query for the C1 counterexample and witness: it contains
`"features"` but neither category keyword and matches no earlier rule. -/
def exQueryC1 : Str := "features of cisco please".data

/-- A concrete query for the C2 witness. -/
def exQueryC2 : Str := "configure vlan".data

/-- A concrete query for the C3 counterexample: it contains
`"features"` and the category keyword `"setup"`. -/
def exQueryC3 : Str := "show setup features".data

/-- A concrete query for the C3 witness. -/
def exQueryC3sec : Str := "security features of cisco".data

/-- A concrete registry command with no description for the C10 witness. -/
def exCmd : Command :=
  { vendor := "Cisco".data, ctype := "setup".data, level := none,
    device := "Cisco".data, name := "Enable SSH".data, description := none,
    command := "ssh enable on [interface]".data, recommendations := none }

/-- A concrete template and query for the C7 witness. -/
def exTemplate : Str := "ntp server [ip_address] now".data

/-- A concrete scenario query in which the pattern `ip address` does
not occur. -/
def exScenQ : Str := "please add ntp".data

/-! ### Bridging lemmas -/

/-- Lemma: `containsStr` decides the infix relation. -/
theorem containsStr_eq_true_iff {hay needle : Str} :
    containsStr hay needle = true ↔ needle <:+: hay := by
  simp [containsStr]

/-- Bool-level prefix test versus the prefix relation. -/
theorem isPrefixOf_eq_true_iff {l1 l2 : Str} :
    l1.isPrefixOf l2 = true ↔ l1 <+: l2 :=
  List.isPrefixOf_iff_prefix

/-- A query containing `"setup"` contains `"set"`. -/
theorem contains_set_of_contains_setup {q : Str}
    (h : containsStr q ("setup".data) = true) :
    containsStr q ("set".data) = true := by
  rw [containsStr_eq_true_iff] at h ⊢
  exact List.IsInfix.trans (by decide) h

/-- A query containing `"setup"` or `"configure"` matches the
configuration-verb rule. -/
theorem hasVerb_of_setup_or_configure {q : Str}
    (h : containsStr q ("setup".data) = true ∨
      containsStr q ("configure".data) = true) :
    hasAny q config_verbs = true := by
  rcases h with h | h
  · have hs := contains_set_of_contains_setup h
    simp only [hasAny, config_verbs, List.any_eq_true]
    exact ⟨"set".data, by simp, hs⟩
  · simp only [hasAny, config_verbs, List.any_eq_true]
    exact ⟨"configure".data, by simp, h⟩

/-- The updated context returned by `detect_vendors`, pointwise. -/
theorem detect_vendors_snd (q uid u : Str) (ctx : Ctx) :
    (detect_vendors q uid ctx).2 u =
      if u = uid then (detect_vendors q uid ctx).1.head? else ctx u := rfl

/-- The vendor list returned by `detect_vendors` is never empty. -/
theorem detect_vendors_fst_ne_nil (q uid : Str) (ctx : Ctx) :
    (detect_vendors q uid ctx).1 ≠ [] := by
  simp only [detect_vendors]
  by_cases h0 : aliasMatches q = []
  · cases hc : ctx uid with
    | some v => simp [h0, hc]
    | none => simp [h0, hc, vendor_mapping]
  · simp [h0]

/-! ### Claim C4 -/

/-- Claim C4: for every query text and user identifier, `detect_vendors`
returns a non-empty ordered vendor list and always overwrites the
remembered vendor of the user with the first element of the returned
list, so that user context holds exactly one vendor after any
detection. -/
theorem claim_C4 (q uid : Str) (ctx : Ctx) :
    ∃ v vs, (detect_vendors q uid ctx).1 = v :: vs ∧
      (detect_vendors q uid ctx).2 uid = some v := by
  obtain ⟨v, vs, h⟩ :=
    List.exists_cons_of_ne_nil (detect_vendors_fst_ne_nil q uid ctx)
  refine ⟨v, vs, h, ?_⟩
  rw [detect_vendors_snd, if_pos rfl, h]
  rfl

/-! ### Claim C5 -/

/-- With no alias match in the query, detection resolves to the
remembered vendor alone. -/
theorem detect_vendors_of_no_alias (q uid v : Str) (ctx : Ctx)
    (h0 : aliasMatches q = []) (hc : ctx uid = some v) :
    (detect_vendors q uid ctx).1 = [v] := by
  simp [detect_vendors, h0, hc]

/-- Claim C5: after a query from user `uid` resolves to a non-empty
vendor list, a next query from `uid` containing no vendor alias keyword
resolves to the one-element list holding the remembered vendor (the
first element of the previous resolution; in particular, the same
single vendor when the previous resolution was a singleton). -/
theorem claim_C5 (ctx : Ctx) (q1 q2 uid v : Str) (vs : List Str)
    (h1 : (detect_vendors q1 uid ctx).1 = v :: vs)
    (h2 : ∀ kv ∈ vendor_mapping, containsStr q2 kv.1 = false) :
    (detect_vendors q2 uid ((detect_vendors q1 uid ctx).2)).1 = [v] := by
  have hctx : (detect_vendors q1 uid ctx).2 uid = some v := by
    rw [detect_vendors_snd, if_pos rfl, h1]; rfl
  have hm0 : aliasMatches q2 = [] := by
    unfold aliasMatches
    rw [List.filter_eq_nil_iff.mpr ?_, List.map_nil]
    intro kv hkv
    simp [h2 kv hkv]
  exact detect_vendors_of_no_alias q2 uid v _ hm0 hctx

/-- Witness for C5 at a concrete input: after `"cisco"` resolves to
`["Cisco"]`, the alias-free query `"and now"` resolves to `["Cisco"]`. -/
theorem claim_C5_witness :
    ((detect_vendors ("cisco".data) exUid exCtx).1 = "Cisco".data :: [] ∧
      ∀ kv ∈ vendor_mapping, containsStr ("and now".data) kv.1 = false) ∧
    (detect_vendors ("and now".data) exUid
      ((detect_vendors ("cisco".data) exUid exCtx).2)).1 = ["Cisco".data] :=
  ⟨by decide,
    claim_C5 exCtx ("cisco".data) ("and now".data) exUid ("Cisco".data) []
      (by decide) (by decide)⟩

/-! ### Claim C8 -/

/-- Claim C8: a vendor whose document list for a category is empty gets
no index for that category (a valid state, not an error), and any
search against that vendor and category contributes the empty result
sequence, for every similarity capability and query. -/
theorem claim_C8 (docs : List (Str × List Str)) (v : Str)
    (h : List.lookup v docs = some []) :
    storeFromDocs docs v = none ∧
    ∀ (sim : List Str → Str → Nat → List Str) (q : Str),
      searchScope (storeFromDocs docs) sim q v = [] := by
  constructor
  · simp [storeFromDocs, h]
  · intro sim q
    simp [searchScope, storeFromDocs, h]

/-- Witness for C8 at a concrete input: a vendor mapped to zero
documents. -/
theorem claim_C8_witness :
    (List.lookup ("Cisco".data) [(("Cisco".data : Str), ([] : List Str))] =
      some []) ∧
    (storeFromDocs [(("Cisco".data : Str), ([] : List Str))] ("Cisco".data) =
        none ∧
      ∀ (sim : List Str → Str → Nat → List Str) (q : Str),
        searchScope (storeFromDocs [(("Cisco".data : Str), ([] : List Str))])
          sim q ("Cisco".data) = []) :=
  ⟨by decide,
    claim_C8 [(("Cisco".data : Str), ([] : List Str))] ("Cisco".data)
      (by decide)⟩

/-! ### Claim C9 -/

/-- Claim C9: on the default retrieval path the returned results list is
never empty, and when the aggregate of the searches over all resolved
vendors is empty, the response is exactly the single fixed
nothing-useful-found message. -/
theorem claim_C9 (env : Env) (q uid : Str) (ctx : Ctx) :
    (defaultPath env q uid ctx).1 ≠ [] ∧
    (aggResults env q (detect_vendors q uid ctx).1 = [] →
      (defaultPath env q uid ctx).1 = [nothingFoundMsg]) := by
  unfold defaultPath
  by_cases h : aggResults env q (detect_vendors q uid ctx).1 = [] <;>
    simp [h]

/-- Witness for C9 at a concrete input: with no stores the aggregate is
empty and the fixed message is returned. -/
theorem claim_C9_witness :
    (defaultPath exEnv ("anything".data) exUid exCtx).1 = [nothingFoundMsg] :=
  (claim_C9 exEnv ("anything".data) exUid exCtx).2 (by decide)

/-! ### Classifier characterisations -/

/-- When the first three rules fail and a configuration verb is
present, the rule chain selects the scenario synthesizer. -/
theorem classify_eq_scenario {q : Str}
    (h1 : hasAny q irrelevant_keywords = false)
    (h2 : hasAny q greeting_tokens = false)
    (h3 : previewMode q = false)
    (h4 : hasAny q config_verbs = true) :
    classify q = Route.scenarioSynth := by
  simp [classify, h1, h2, h3, h4]

/-- A query without configuration verbs has `is_setup = False` on the
default retrieval path. -/
theorem isSetup_false_of_no_verbs {q : Str}
    (h : hasAny q config_verbs = false) : isSetupQuery q = false := by
  cases hs : containsStr q ("setup".data) with
  | true => rw [hasVerb_of_setup_or_configure (Or.inl hs)] at h; cases h
  | false =>
    cases hc : containsStr q ("configure".data) with
    | true => rw [hasVerb_of_setup_or_configure (Or.inr hc)] at h; cases h
    | false => simp [isSetupQuery, hs, hc]

/-! ### Claim C2 -/

/-- Claim C2: a query that is not rejected as irrelevant, is not a
greeting and is not in preview mode, and that contains `"setup"` or
`"configure"`, is routed to the scenario synthesizer (because `"set"`
is a substring of `"setup"` and `"configure"` is a configuration verb);
consequently the setup-category feature-listing branch is never
selected for any query, and whenever the default retrieval code runs
its setup-category side is off. -/
theorem claim_C2 (env : Env) (rawQ uid : Str) (ctx : Ctx)
    (h1 : hasAny (normalizeQuery rawQ) irrelevant_keywords = false)
    (h2 : hasAny (normalizeQuery rawQ) greeting_tokens = false)
    (h3 : previewMode (normalizeQuery rawQ) = false)
    (h4 : containsStr (normalizeQuery rawQ) ("setup".data) = true ∨
      containsStr (normalizeQuery rawQ) ("configure".data) = true) :
    query_faiss env rawQ uid ctx =
      ([handle_scenario env.all_commands (normalizeQuery rawQ)], ctx) ∧
    (∀ q : Str, classify q ≠ Route.featuresSetup) ∧
    (∀ q : Str, (classify q = Route.defaultRetrieval ∨
        classify q = Route.featuresFallthrough) → isSetupQuery q = false) := by
  refine ⟨?_, ?_, ?_⟩
  · have hc := classify_eq_scenario h1 h2 h3 (hasVerb_of_setup_or_configure h4)
    simp only [query_faiss]
    rw [hc]
  · intro q hq
    unfold classify at hq
    split_ifs at hq with a1 a2 a3 a4 a5 a6 a7 <;>
      try exact absurd hq (by decide)
    exact a4 (hasVerb_of_setup_or_configure (Or.inl a7))
  · intro q hq
    rcases hq with hq | hq <;>
    · unfold classify at hq
      split_ifs at hq with a1 a2 a3 a4 a5 a6 a7 <;>
        try exact absurd hq (by decide)
      exact isSetup_false_of_no_verbs (by simpa using a4)

/-- Witness for C2 at a concrete input. -/
theorem claim_C2_witness :
    (hasAny (normalizeQuery exQueryC2) irrelevant_keywords = false ∧
     hasAny (normalizeQuery exQueryC2) greeting_tokens = false ∧
     previewMode (normalizeQuery exQueryC2) = false ∧
     containsStr (normalizeQuery exQueryC2) ("configure".data) = true) ∧
    query_faiss exEnv exQueryC2 exUid exCtx =
      ([handle_scenario exEnv.all_commands (normalizeQuery exQueryC2)],
        exCtx) :=
  ⟨by decide,
    (claim_C2 exEnv exQueryC2 exUid exCtx (by decide) (by decide) (by decide)
      (Or.inr (by decide))).1⟩

/-! ### Claim C1 -/

/-- Counterexample to claim C1 as stated: on a normalized query
containing `"features"` but neither `"security"` nor `"setup"`, with no
earlier rule matching, classification does NOT fall through with no
result path taken — the request is handled by the default
vector-retrieval path, which here produces the fixed
nothing-useful-found message. -/
theorem claim_C1_counterexample :
    containsStr (normalizeQuery exQueryC1) ("features".data) = true ∧
    containsStr (normalizeQuery exQueryC1) ("security".data) = false ∧
    containsStr (normalizeQuery exQueryC1) ("setup".data) = false ∧
    hasAny (normalizeQuery exQueryC1) irrelevant_keywords = false ∧
    hasAny (normalizeQuery exQueryC1) greeting_tokens = false ∧
    previewMode (normalizeQuery exQueryC1) = false ∧
    hasAny (normalizeQuery exQueryC1) config_verbs = false ∧
    classify (normalizeQuery exQueryC1) = Route.featuresFallthrough ∧
    (query_faiss exEnv exQueryC1 exUid exCtx).1 =
      (defaultPath exEnv (normalizeQuery exQueryC1) exUid
        ((detect_vendors (normalizeQuery exQueryC1) exUid exCtx).2)).1 ∧
    (query_faiss exEnv exQueryC1 exUid exCtx).1 = [nothingFoundMsg] := by
  decide

/-- Claim C1 (amended): on every normalized query containing
`"features"` but neither `"security"` nor `"setup"`, with no earlier
rule matching, classification falls through out of the features block
into the trailing default vector-retrieval path, which handles the
request (with the context already updated by the features-branch
vendor detection). -/
theorem claim_C1 (env : Env) (rawQ uid : Str) (ctx : Ctx)
    (h1 : hasAny (normalizeQuery rawQ) irrelevant_keywords = false)
    (h2 : hasAny (normalizeQuery rawQ) greeting_tokens = false)
    (h3 : previewMode (normalizeQuery rawQ) = false)
    (h4 : hasAny (normalizeQuery rawQ) config_verbs = false)
    (h5 : containsStr (normalizeQuery rawQ) ("features".data) = true)
    (h6 : containsStr (normalizeQuery rawQ) ("security".data) = false)
    (h7 : containsStr (normalizeQuery rawQ) ("setup".data) = false) :
    query_faiss env rawQ uid ctx =
      defaultPath env (normalizeQuery rawQ) uid
        ((detect_vendors (normalizeQuery rawQ) uid ctx).2) := by
  have hc : classify (normalizeQuery rawQ) = Route.featuresFallthrough := by
    simp [classify, h1, h2, h3, h4, h5, h6, h7]
  simp only [query_faiss]
  rw [hc]

/-- Witness for the amended C1 at a concrete input. -/
theorem claim_C1_witness :
    (hasAny (normalizeQuery exQueryC1) irrelevant_keywords = false ∧
     hasAny (normalizeQuery exQueryC1) greeting_tokens = false ∧
     previewMode (normalizeQuery exQueryC1) = false ∧
     hasAny (normalizeQuery exQueryC1) config_verbs = false ∧
     containsStr (normalizeQuery exQueryC1) ("features".data) = true ∧
     containsStr (normalizeQuery exQueryC1) ("security".data) = false ∧
     containsStr (normalizeQuery exQueryC1) ("setup".data) = false) ∧
    query_faiss exEnv exQueryC1 exUid exCtx =
      defaultPath exEnv (normalizeQuery exQueryC1) exUid
        ((detect_vendors (normalizeQuery exQueryC1) exUid exCtx).2) :=
  ⟨by decide,
    claim_C1 exEnv exQueryC1 exUid exCtx (by decide) (by decide) (by decide)
      (by decide) (by decide) (by decide) (by decide)⟩

/-! ### Claim C3 -/

/-- Counterexample to claim C3 as stated: this query contains
`"features"` and the category keyword `"setup"`, yet the classifier
does not delegate to the feature lister — `"set"` matches the
configuration-verb rule first and the query is handled by the scenario
synthesizer (here yielding its fixed guidance string). -/
theorem claim_C3_counterexample :
    containsStr (normalizeQuery exQueryC3) ("features".data) = true ∧
    containsStr (normalizeQuery exQueryC3) ("setup".data) = true ∧
    classify (normalizeQuery exQueryC3) = Route.scenarioSynth ∧
    query_faiss exEnv exQueryC3 exUid exCtx =
      ([handle_scenario exEnv.all_commands (normalizeQuery exQueryC3)],
        exCtx) ∧
    handle_scenario exEnv.all_commands (normalizeQuery exQueryC3) =
      noMatchMsg :=
  ⟨by decide, by decide, by decide, rfl, by decide⟩

/-- Claim C3 (amended): for every query containing `"features"` and
`"security"` that matches none of the earlier rules (in particular no
configuration verb), the classifier delegates to the feature lister
with the security category and the derived optional level filter.
Queries containing the category keyword `"setup"` are captured by the
scenario rule first, and the setup feature-listing call as written
passes no level filter. -/
theorem claim_C3 (env : Env) (rawQ uid : Str) (ctx : Ctx)
    (h1 : hasAny (normalizeQuery rawQ) irrelevant_keywords = false)
    (h2 : hasAny (normalizeQuery rawQ) greeting_tokens = false)
    (h3 : previewMode (normalizeQuery rawQ) = false)
    (h4 : hasAny (normalizeQuery rawQ) config_verbs = false)
    (h5 : containsStr (normalizeQuery rawQ) ("features".data) = true)
    (h6 : containsStr (normalizeQuery rawQ) ("security".data) = true) :
    query_faiss env rawQ uid ctx =
      ([generate_feature_list env.dataset
          (detect_vendors (normalizeQuery rawQ) uid ctx).1 ("security".data)
          (levelFilterOf (normalizeQuery rawQ))],
        (detect_vendors (normalizeQuery rawQ) uid ctx).2) := by
  have hc : classify (normalizeQuery rawQ) = Route.featuresSecurity := by
    simp [classify, h1, h2, h3, h4, h5, h6]
  simp only [query_faiss]
  rw [hc]

/-- Witness for the amended C3 at a concrete input. -/
theorem claim_C3_witness :
    (hasAny (normalizeQuery exQueryC3sec) irrelevant_keywords = false ∧
     hasAny (normalizeQuery exQueryC3sec) greeting_tokens = false ∧
     previewMode (normalizeQuery exQueryC3sec) = false ∧
     hasAny (normalizeQuery exQueryC3sec) config_verbs = false ∧
     containsStr (normalizeQuery exQueryC3sec) ("features".data) = true ∧
     containsStr (normalizeQuery exQueryC3sec) ("security".data) = true) ∧
    query_faiss exEnv exQueryC3sec exUid exCtx =
      ([generate_feature_list exEnv.dataset
          (detect_vendors (normalizeQuery exQueryC3sec) exUid exCtx).1
          ("security".data) (levelFilterOf (normalizeQuery exQueryC3sec))],
        (detect_vendors (normalizeQuery exQueryC3sec) exUid exCtx).2) :=
  ⟨by decide,
    claim_C3 exEnv exQueryC3sec exUid exCtx (by decide) (by decide)
      (by decide) (by decide) (by decide) (by decide)⟩

/-! ### Claim C6 -/

/-- A non-dict node leaves the walk state unchanged. -/
theorem collect_features_arr (vendor : Str) (cmds : List Cmd) (path : Str)
    (st : FlatState) : collect_features vendor (JValue.arr cmds) path st = st := by
  simp [collect_features]

/-- The empty child list leaves the walk state unchanged. -/
theorem collectChildren_nil (vendor : Str) (path : Str) (st : FlatState) :
    collectChildren vendor [] path st = st := by
  simp [collectChildren]

/-- One step of the child loop of `collect_features`. -/
theorem collectChildren_cons (vendor : Str) (key : Str) (val : JValue)
    (rest : List (Str × JValue)) (path : Str) (st : FlatState) :
    collectChildren vendor ((key, val) :: rest) path st =
      collectChildren vendor rest path
        (if isVendorKey key then st
         else collect_features vendor val (path ++ ('/' :: key)) st) := by
  rw [collectChildren]

/-- A dict node first emits for its `setup` key, then for its
`security` key, then runs the child loop on all its entries. -/
theorem collect_features_obj (vendor : Str) (es : List (Str × JValue))
    (path : Str) (st : FlatState) :
    collect_features vendor (JValue.obj es) path st =
      collectChildren vendor es path
        (match List.lookup ("security".data) es with
         | some v => emitSecurityLevels vendor path (objEntriesOf v)
             (match List.lookup ("setup".data) es with
              | some w => emitSetupList vendor path (cmdListOf w) st
              | none => st)
         | none =>
           match List.lookup ("setup".data) es with
           | some w => emitSetupList vendor path (cmdListOf w) st
           | none => st) := by
  rw [collect_features]

/-- The child loop is exactly a fold of the recursive walk over the
children whose keys are not vendor display names, each with
`"/" + key` appended to the device path. -/
theorem collectChildren_eq_filter_foldl (vendor : Str) :
    ∀ (es : List (Str × JValue)) (path : Str) (st : FlatState),
    collectChildren vendor es path st =
      (es.filter (fun kv => !(isVendorKey kv.1))).foldl
        (fun st kv => collect_features vendor kv.2 (path ++ ('/' :: kv.1)) st)
        st := by
  intro es
  induction es with
  | nil => intro path st; simp [collectChildren_nil]
  | cons kv rest ih =>
    intro path st
    obtain ⟨key, val⟩ := kv
    rw [collectChildren_cons, List.filter_cons]
    by_cases hv : isVendorKey key = true
    · rw [if_pos hv]
      simp only [hv, Bool.not_true, Bool.false_eq_true, if_false]
      exact ih path st
    · rw [if_neg hv]
      have hb : (!(isVendorKey key)) = true := by
        cases h : isVendorKey key
        · rfl
        · exact absurd h hv
      simp only [hb, if_true, List.foldl_cons]
      exact ih path _

/-- Claim C6: the recursive walk of the tree flattener, on a dict node,
first emits Commands/Documents for the `setup` and `security` keys of
the node and then
recurses into exactly the child keys whose names are not
(case-insensitively) canonical vendor display names, appending
`"/" + key` to the device path; nodes that are not dicts terminate the
recursion with the state unchanged (no Commands or Documents emitted). -/
theorem claim_C6 :
    (∀ (vendor : Str) (cmds : List Cmd) (path : Str) (st : FlatState),
      collect_features vendor (JValue.arr cmds) path st = st) ∧
    (∀ (vendor : Str) (es : List (Str × JValue)) (path : Str) (st : FlatState),
      collect_features vendor (JValue.obj es) path st =
        (es.filter (fun kv => !(isVendorKey kv.1))).foldl
          (fun st kv =>
            collect_features vendor kv.2 (path ++ ('/' :: kv.1)) st)
          (match List.lookup ("security".data) es with
           | some v => emitSecurityLevels vendor path (objEntriesOf v)
               (match List.lookup ("setup".data) es with
                | some w => emitSetupList vendor path (cmdListOf w) st
                | none => st)
           | none =>
             match List.lookup ("setup".data) es with
             | some w => emitSetupList vendor path (cmdListOf w) st
             | none => st)) := by
  refine ⟨collect_features_arr, ?_⟩
  intro vendor es path st
  rw [collect_features_obj, collectChildren_eq_filter_foldl]

/-! ### Claim C10 -/

/-- An element of a joined list occurs inside the join. -/
theorem mem_infix_joinSep (sep x : Str) (l : List Str) (h : x ∈ l) :
    x <:+: joinSep sep l := by
  induction l with
  | nil => cases h
  | cons y ys ih =>
    cases ys with
    | nil =>
      rcases List.mem_cons.mp h with h | h
      · subst h; exact List.infix_refl _
      · cases h
    | cons z zs =>
      rcases List.mem_cons.mp h with h | h
      · subst h
        show x <:+: x ++ sep ++ joinSep sep (z :: zs)
        rw [List.append_assoc]
        exact (List.prefix_append _ _).isInfix
      · show x <:+: y ++ sep ++ joinSep sep (z :: zs)
        exact (ih h).trans (List.suffix_append _ _).isInfix

/-- Claim C10: a registry Command whose description is missing or empty
matches every query (the matcher tests substring containment of the
name or of the description, and the empty string is a substring of
every query), so its name and filled template appear in the output of
every scenario-synthesis invocation. -/
theorem claim_C10 (registry : List Command) (q : Str) (cmd : Command)
    (h1 : cmd ∈ registry)
    (h2 : cmd.description = none ∨ cmd.description = some []) :
    matchesQuery q cmd = true ∧
    (cmd.name ++ ('\n' :: fillTemplate cmd.command q)) <:+:
      handle_scenario registry q := by
  have hdesc : (cmd.description.getD [] : Str) = [] := by
    rcases h2 with h | h <;> simp [h]
  have hm : matchesQuery q cmd = true := by
    simp [matchesQuery, hdesc, lower, containsStr, List.nil_infix]
  refine ⟨hm, ?_⟩
  have hmem : scenarioEntry q cmd ∈
      (registry.filter (fun c => matchesQuery q c)).map
        (fun c => scenarioEntry q c) :=
    List.mem_map_of_mem _ (List.mem_filter.mpr ⟨h1, hm⟩)
  have hne : (registry.filter (fun c => matchesQuery q c)).map
      (fun c => scenarioEntry q c) ≠ [] := List.ne_nil_of_mem hmem
  show scenarioEntry q cmd <:+: handle_scenario registry q
  simp only [handle_scenario]
  rw [if_neg hne]
  exact (mem_infix_joinSep _ _ _ hmem).trans
    (List.suffix_append scenarioHeader _).isInfix

/-- Witness for C10 at a concrete input: a command with no description
is included in the synthesis output for an unrelated query. -/
theorem claim_C10_witness :
    (exCmd ∈ [exCmd] ∧
      (exCmd.description = none ∨ exCmd.description = some [])) ∧
    (matchesQuery ("please turn it on".data) exCmd = true ∧
      (exCmd.name ++
          ('\n' :: fillTemplate exCmd.command ("please turn it on".data))) <:+:
        handle_scenario [exCmd] ("please turn it on".data)) :=
  ⟨⟨by decide, Or.inl rfl⟩,
    claim_C10 [exCmd] ("please turn it on".data) exCmd (by decide)
      (Or.inl rfl)⟩

/-! ### Replacement machinery for Claim C7 -/

/-- Replacement on the empty string. -/
theorem replaceAllAux_nil (f : Nat) (pat rep : Str) :
    replaceAllAux f [] pat rep = [] := by
  cases f <;> cases pat <;> rfl

/-- The fuel of `replaceAllAux` is irrelevant once it covers the
length of the string. -/
theorem replaceAllAux_congr :
    ∀ (f1 f2 : Nat) (s pat rep : Str), s.length ≤ f1 → s.length ≤ f2 →
      replaceAllAux f1 s pat rep = replaceAllAux f2 s pat rep := by
  intro f1
  induction f1 with
  | zero =>
    intro f2 s pat rep h1 _
    have hs : s = [] := List.length_eq_zero.mp (Nat.le_zero.mp h1)
    subst hs
    rw [replaceAllAux_nil, replaceAllAux_nil]
  | succ n ih =>
    intro f2 s pat rep h1 h2
    cases s with
    | nil => rw [replaceAllAux_nil, replaceAllAux_nil]
    | cons c rest =>
      cases f2 with
      | zero => exact absurd h2 (by simp)
      | succ m =>
        cases pat with
        | nil => rfl
        | cons p ps =>
          simp only [replaceAllAux]
          by_cases hp : ((p :: ps).isPrefixOf (c :: rest)) = true
          · rw [if_pos hp, if_pos hp]
            congr 1
            apply ih
            · simp only [List.length_cons] at h1
              simp only [List.length_drop]
              omega
            · simp only [List.length_cons] at h2
              simp only [List.length_drop]
              omega
          · rw [if_neg hp, if_neg hp]
            congr 1
            apply ih
            · simp only [List.length_cons] at h1; omega
            · simp only [List.length_cons] at h2; omega

/-- Replacement with an empty pattern returns the string unchanged. -/
theorem replaceAll_nil_pat (s rep : Str) : replaceAll s [] rep = s := by
  cases s <;> rfl

/-- Replacement in the empty string. -/
theorem replaceAll_nil (pat rep : Str) : replaceAll [] pat rep = [] := by
  cases pat <;> rfl

/-- The step equation of `replaceAll` on a non-empty string and
pattern. -/
theorem replaceAll_cons (c : Char) (rest : Str) (p : Char) (ps rep : Str) :
    replaceAll (c :: rest) (p :: ps) rep =
      if (p :: ps).isPrefixOf (c :: rest) then
        rep ++ replaceAll (rest.drop ps.length) (p :: ps) rep
      else c :: replaceAll rest (p :: ps) rep := by
  show replaceAllAux ((c :: rest).length) (c :: rest) (p :: ps) rep = _
  rw [List.length_cons]
  simp only [replaceAllAux]
  by_cases hp : ((p :: ps).isPrefixOf (c :: rest)) = true
  · rw [if_pos hp, if_pos hp]
    congr 1
    exact replaceAllAux_congr rest.length (rest.drop ps.length).length
      (rest.drop ps.length) (p :: ps) rep
      (by simp only [List.length_drop]; omega) le_rfl
  · rw [if_neg hp, if_neg hp]
    rfl

/-- Replacing a pattern by itself is the identity (this is what the
placeholder loop does to a token whose pattern is not located). -/
theorem replaceAll_self (s pat : Str) : replaceAll s pat pat = s := by
  cases pat with
  | nil => exact replaceAll_nil_pat s []
  | cons p ps =>
    suffices h : ∀ n (s : Str), s.length ≤ n →
        replaceAll s (p :: ps) (p :: ps) = s from h s.length s le_rfl
    intro n
    induction n with
    | zero =>
      intro s hs
      have h0 : s = [] := List.length_eq_zero.mp (Nat.le_zero.mp hs)
      subst h0
      exact replaceAll_nil _ _
    | succ n ih =>
      intro s hs
      cases s with
      | nil => exact replaceAll_nil _ _
      | cons c rest =>
        rw [replaceAll_cons]
        by_cases hp : ((p :: ps).isPrefixOf (c :: rest)) = true
        · rw [if_pos hp]
          obtain ⟨t, ht⟩ := isPrefixOf_eq_true_iff.mp hp
          have hdrop : rest.drop ps.length = t := by
            have h2 := ht
            rw [List.cons_append] at h2
            injection h2 with hc hrest
            rw [← hrest, List.drop_left]
          rw [hdrop]
          have hlen : t.length ≤ n := by
            have hl := congrArg List.length ht
            simp only [List.length_append, List.length_cons] at hl
            simp only [List.length_cons] at hs
            omega
          rw [ih t hlen]
          exact ht
        · rw [if_neg hp]
          rw [ih rest (by simp only [List.length_cons] at hs; omega)]

/-! ### Non-overlap of distinct bracket tokens -/

/-- Two distinct bracket-free keys cannot align as
`k ++ "]"` a prefix of `kk ++ "]" ++ t`. -/
theorem prefix_token_tail_contra :
    ∀ (k kk t : Str), (']' : Char) ∉ k → (']' : Char) ∉ kk → k ≠ kk →
      ¬ ((k ++ [']']) <+: (kk ++ ']' :: t)) := by
  intro k
  induction k with
  | nil =>
    intro kk t _ hkk hne h
    cases kk with
    | nil => exact hne rfl
    | cons b kk2 =>
      rw [List.nil_append, List.cons_append] at h
      have hb := (List.cons_prefix_cons.mp h).1
      exact hkk (by rw [hb]; exact List.mem_cons_self _ _)
  | cons a k2 ih =>
    intro kk t hk hkk hne h
    cases kk with
    | nil =>
      rw [List.cons_append, List.nil_append] at h
      have ha := (List.cons_prefix_cons.mp h).1
      exact hk (by rw [← ha]; exact List.mem_cons_self _ _)
    | cons b kk2 =>
      rw [List.cons_append, List.cons_append] at h
      obtain ⟨hab, h2⟩ := List.cons_prefix_cons.mp h
      exact ih kk2 t (fun hm => hk (List.mem_cons_of_mem _ hm))
        (fun hm => hkk (List.mem_cons_of_mem _ hm))
        (fun he => hne (by rw [hab, he])) h2

/-- The token of one bracket-free key is never a prefix of the token of
a different bracket-free key followed by anything. -/
theorem tok_prefix_contra (k kk t : Str) (hk : (']' : Char) ∉ k)
    (hkk : (']' : Char) ∉ kk) (hne : k ≠ kk) :
    ¬ (tokOf k <+: tokOf kk ++ t) := by
  intro h
  have h2 : ('[' :: (k ++ [']'])) <+: ('[' :: (kk ++ (']' :: t))) := by
    simpa [tokOf, List.append_assoc] using h
  exact prefix_token_tail_contra k kk t hk hkk hne
    (List.cons_prefix_cons.mp h2).2

/-- The head of a non-empty suffix is an element of the list. -/
theorem head_mem_of_suffix {d : Char} {a3 l : Str} (h : (d :: a3) <:+ l) :
    d ∈ l := by
  obtain ⟨w, hw⟩ := h
  rw [← hw]
  exact List.mem_append_right w (List.mem_cons_self d a3)

/-- No occurrence of another token can start strictly inside a
bracket-free token: interior characters are not `'['`, and a start at
a start at the head of the token itself is ruled out by the given
hypothesis. -/
theorem noStart_within_token (k kk t : Str) (hk1 : ('[' : Char) ∉ k)
    (hwhole : ¬ (tokOf kk <+: tokOf k ++ t)) :
    ∀ a2, a2 ≠ [] → a2 <:+ tokOf k → ¬ (tokOf kk <+: a2 ++ t) := by
  intro a2 hne hsuf hpre
  have hform : tokOf k = '[' :: (k ++ [']']) := rfl
  rw [hform] at hsuf
  rcases List.suffix_cons_iff.mp hsuf with heq | hsuf2
  · rw [heq] at hpre
    exact hwhole hpre
  · cases a2 with
    | nil => exact hne rfl
    | cons d a3 =>
      have hdmem : d ∈ k ++ [']'] := head_mem_of_suffix hsuf2
      have hd : d ≠ '[' := by
        rcases List.mem_append.mp hdmem with hm | hm
        · intro he; rw [he] at hm; exact hk1 hm
        · intro he; rw [he] at hm; simp at hm
      have hhead :=
        (List.cons_prefix_cons.mp
          (by simpa [tokOf, List.cons_append] using hpre)).1
      exact hd hhead.symm

/-- If no occurrence of `pat` starts inside `a`, an occurrence of `pat`
in `a ++ t` lies in `t`. -/
theorem infix_right_of_no_start (pat : Str) :
    ∀ (a t : Str),
      (∀ a2, a2 ≠ [] → a2 <:+ a → ¬ (pat <+: a2 ++ t)) →
      pat <:+: a ++ t → pat <:+: t := by
  intro a
  induction a with
  | nil => intro t _ h; simpa using h
  | cons c a2 ih =>
    intro t hno h
    rw [List.cons_append] at h
    rcases List.infix_cons_iff.mp h with hpre | hinf
    · exact absurd (by simpa [List.cons_append] using hpre)
        (hno (c :: a2) (by simp) (List.suffix_refl _))
    · exact ih t
        (fun b hb hbs => hno b hb (hbs.trans (List.suffix_cons c a2))) hinf

/-- If no occurrence of `pat` starts inside `a`, replacement walks
through `a` untouched. -/
theorem replaceAll_append_no_start (pat rep : Str) (hpat : pat ≠ []) :
    ∀ (a t : Str),
      (∀ a2, a2 ≠ [] → a2 <:+ a → ¬ (pat <+: a2 ++ t)) →
      replaceAll (a ++ t) pat rep = a ++ replaceAll t pat rep := by
  obtain ⟨p, ps, rfl⟩ : ∃ p ps, pat = p :: ps := by
    cases pat with
    | nil => exact absurd rfl hpat
    | cons p ps => exact ⟨p, ps, rfl⟩
  intro a
  induction a with
  | nil => intro t _; simp
  | cons c a2 ih =>
    intro t hno
    rw [List.cons_append, replaceAll_cons]
    have hnp : ¬ ((p :: ps).isPrefixOf (c :: (a2 ++ t)) = true) := by
      rw [isPrefixOf_eq_true_iff]
      have h0 := hno (c :: a2) (by simp) (List.suffix_refl _)
      simpa [List.cons_append] using h0
    rw [if_neg hnp]
    rw [ih t (fun b hb hbs => hno b hb (hbs.trans (List.suffix_cons c a2)))]
    rfl

/-- Token preservation: replacing every occurrence of the token of a
different bracket-free key (by anything) keeps an occurrence of the
token of `k` intact — occurrences of distinct bracket tokens cannot
overlap. -/
theorem replaceAll_preserves_token (k kk rep : Str)
    (hk1 : ('[' : Char) ∉ k) (hk2 : (']' : Char) ∉ k)
    (hkk1 : ('[' : Char) ∉ kk) (hkk2 : (']' : Char) ∉ kk)
    (hne : k ≠ kk) :
    ∀ (n : Nat) (s : Str), s.length ≤ n → tokOf k <:+: s →
      tokOf k <:+: replaceAll s (tokOf kk) rep := by
  intro n
  induction n with
  | zero =>
    intro s hs h
    have hs0 : s = [] := List.length_eq_zero.mp (Nat.le_zero.mp hs)
    subst hs0
    have hlen := h.length_le
    simp [tokOf] at hlen
  | succ n ih =>
    intro s hs h
    cases s with
    | nil =>
      have hlen := h.length_le
      simp [tokOf] at hlen
    | cons c rest =>
      have hkkform : tokOf kk = '[' :: (kk ++ [']']) := rfl
      by_cases hp : (('[' :: (kk ++ [']'])).isPrefixOf (c :: rest)) = true
      · obtain ⟨t, ht⟩ := isPrefixOf_eq_true_iff.mp hp
        have hdrop : rest.drop (kk ++ [']']).length = t := by
          have h2 := ht
          rw [List.cons_append] at h2
          injection h2 with hc hrest
          rw [← hrest, List.drop_left]
        have hinf : tokOf k <:+: t := by
          apply infix_right_of_no_start (tokOf k) (tokOf kk) t
          · exact noStart_within_token kk k t hkk1
              (tok_prefix_contra k kk t hk2 hkk2 hne)
          · rw [← ht] at h
            exact h
        have hlen : t.length ≤ n := by
          have hl := congrArg List.length ht
          simp only [List.length_append, List.length_cons] at hl
          simp only [List.length_cons] at hs
          omega
        rw [hkkform, replaceAll_cons, if_pos hp, hdrop]
        exact (ih t hlen hinf).trans (List.suffix_append rep _).isInfix
      · rcases List.infix_cons_iff.mp h with hpre | hinf
        · obtain ⟨t0, ht0⟩ := hpre
          have hnopre : ¬ (tokOf kk <+: tokOf k ++ t0) := by
            intro hcon
            rw [ht0] at hcon
            exact hp (isPrefixOf_eq_true_iff.mpr hcon)
          have heq : replaceAll (tokOf k ++ t0) (tokOf kk) rep
              = tokOf k ++ replaceAll t0 (tokOf kk) rep :=
            replaceAll_append_no_start (tokOf kk) rep (by simp [tokOf])
              (tokOf k) t0 (noStart_within_token k kk t0 hk1 hnopre)
          rw [← ht0, heq]
          exact (List.prefix_append _ _).isInfix
        · have hrec := ih rest
            (by simp only [List.length_cons] at hs; omega) hinf
          rw [hkkform, replaceAll_cons, if_neg hp]
          exact List.infix_cons hrec

/-! ### Placeholder-extraction spec for Claim C7 -/

/-- Key extraction on the empty string. -/
theorem extractKeysAux_nil (f : Nat) : extractKeysAux f [] = [] := by
  cases f <;> rfl

/-- A list containing `']'` splits at its first `']'`. -/
theorem dropWhile_mem_decomp :
    ∀ (l : Str), (']' : Char) ∈ l →
      ∃ t, l.dropWhile (fun x => x ≠ ']') = ']' :: t ∧
        l = l.takeWhile (fun x => x ≠ ']') ++ ']' :: t := by
  intro l hm
  induction l with
  | nil => cases hm
  | cons c cs ih =>
    by_cases hc : c = ']'
    · subst hc
      refine ⟨cs, ?_, ?_⟩
      · rw [List.dropWhile_cons]
        simp
      · rw [List.takeWhile_cons]
        simp
    · have hm2 : (']' : Char) ∈ cs := by
        rcases List.mem_cons.mp hm with h | h
        · exact absurd h.symm hc
        · exact h
      obtain ⟨t, h1, h2⟩ := ih hm2
      have hcond : decide (c ≠ ']') = true := by simp [hc]
      refine ⟨t, ?_, ?_⟩
      · rw [List.dropWhile_cons, if_pos hcond]
        exact h1
      · rw [List.takeWhile_cons, if_pos hcond, List.cons_append]
        exact congrArg (c :: ·) h2

/-- Every key extracted from a template contains no `']'`, and its
bracket token occurs literally in the template. -/
theorem extractKeysAux_mem_spec :
    ∀ (n : Nat) (s k : Str), s.length ≤ n → k ∈ extractKeysAux n s →
      (']' : Char) ∉ k ∧ tokOf k <:+: s := by
  intro n
  induction n with
  | zero =>
    intro s k _ hm
    cases hm
  | succ n ih =>
    intro s k hs hm
    cases s with
    | nil =>
      rw [extractKeysAux_nil] at hm
      cases hm
    | cons c rest =>
      by_cases hc : c = '['
      · subst hc
        by_cases hbr : (']' : Char) ∈ rest
        · rw [show extractKeysAux (n + 1) ('[' :: rest) =
              (rest.takeWhile (fun x => x ≠ ']')) ::
                extractKeysAux n ((rest.dropWhile (fun x => x ≠ ']')).tail)
              from by simp [extractKeysAux, hbr]] at hm
          obtain ⟨t, hdw, hdecomp⟩ := dropWhile_mem_decomp rest hbr
          rcases List.mem_cons.mp hm with hk | hk
          · subst hk
            constructor
            · intro hmem
              have hp := List.mem_takeWhile_imp hmem
              simp at hp
            · refine List.IsPrefix.isInfix ⟨t, ?_⟩
              show ('[' :: ((rest.takeWhile (fun x => x ≠ ']')) ++ [']'])) ++ t
                = '[' :: rest
              rw [List.cons_append, List.append_assoc, List.singleton_append]
              rw [← hdecomp]
          · rw [hdw, List.tail_cons] at hk
            have hlen : t.length ≤ n := by
              have hl := congrArg List.length hdecomp
              simp only [List.length_append, List.length_cons] at hl
              simp only [List.length_cons] at hs
              omega
            obtain ⟨hnk, hinf⟩ := ih t k hlen hk
            refine ⟨hnk, ?_⟩
            have hsuf : t <:+ '[' :: rest := by
              refine ⟨'[' :: ((rest.takeWhile (fun x => x ≠ ']')) ++ [']']), ?_⟩
              show ('[' :: ((rest.takeWhile (fun x => x ≠ ']')) ++ [']'])) ++ t
                = '[' :: rest
              rw [List.cons_append, List.append_assoc, List.singleton_append]
              rw [← hdecomp]
            exact hinf.trans hsuf.isInfix
        · rw [show extractKeysAux (n + 1) ('[' :: rest) =
              extractKeysAux n rest from by simp [extractKeysAux, hbr]] at hm
          obtain ⟨hnk, hinf⟩ :=
            ih rest k (by simp only [List.length_cons] at hs; omega) hm
          exact ⟨hnk, List.infix_cons hinf⟩
      · rw [show extractKeysAux (n + 1) (c :: rest) =
            extractKeysAux n rest from by simp [extractKeysAux, hc]] at hm
        obtain ⟨hnk, hinf⟩ :=
          ih rest k (by simp only [List.length_cons] at hs; omega) hm
        exact ⟨hnk, List.infix_cons hinf⟩

/-- Key extraction spec, at the exact fuel. -/
theorem extractKeys_key_spec (template k : Str)
    (h : k ∈ extractKeys template) :
    (']' : Char) ∉ k ∧ tokOf k <:+: template :=
  extractKeysAux_mem_spec template.length template k le_rfl h

/-- The placeholder loop preserves the token of an unlocated
bracket-free key: its own step is the identity, and the step of every
other key cannot overlap it. -/
theorem fillFold_preserves (q k : Str)
    (hk1 : ('[' : Char) ∉ k) (hk2 : (']' : Char) ∉ k)
    (hloc : locate (patOf k) q = none) :
    ∀ (keys : List Str) (s : Str),
      (∀ kk ∈ keys, ('[' : Char) ∉ kk ∧ (']' : Char) ∉ kk) →
      tokOf k <:+: s →
      tokOf k <:+: keys.foldl (fun s kk => fillStep q s kk) s := by
  intro keys
  induction keys with
  | nil => intro s _ h; simpa using h
  | cons kk ks ih =>
    intro s hkeys h
    simp only [List.foldl_cons]
    apply ih _ (fun a ha => hkeys a (List.mem_cons_of_mem _ ha))
    by_cases he : kk = k
    · subst he
      show tokOf kk <:+: fillStep q s kk
      unfold fillStep
      rw [hloc, replaceAll_self]
      exact h
    · obtain ⟨ha1, ha2⟩ := hkeys kk (List.mem_cons_self _ _)
      show tokOf k <:+: fillStep q s kk
      unfold fillStep
      cases hl : locate (patOf kk) q with
      | some g =>
        exact replaceAll_preserves_token k kk g hk1 hk2 ha1 ha2
          (fun h0 => he h0.symm) s.length s le_rfl h
      | none =>
        exact replaceAll_preserves_token k kk (tokOf kk) hk1 hk2 ha1 ha2
          (fun h0 => he h0.symm) s.length s le_rfl h

/-! ### Claim C7 -/

/-- Claim C7: in scenario synthesis over a template whose extracted
keys contain no bracket characters, a placeholder token whose derived
pattern has no locatable occurrence in the query remains literally
present, brackets included, in the synthesized command; and when an
occurrence is located, that step substitutes the matched query span
(an occurrence in the query) for the bracket token. -/
theorem claim_C7 (template q k : Str)
    (hk : k ∈ extractKeys template)
    (hbr : ∀ kk ∈ extractKeys template, ('[' : Char) ∉ kk) :
    (locate (patOf k) q = none → tokOf k <:+: fillTemplate template q) ∧
    (∀ span, locate (patOf k) q = some span →
      span <:+: q ∧ ∀ s, fillStep q s k = replaceAll s (tokOf k) span) := by
  constructor
  · intro hloc
    obtain ⟨hk2, hinf⟩ := extractKeys_key_spec template k hk
    exact fillFold_preserves q k (hbr k hk) hk2 hloc (extractKeys template)
      template
      (fun kk hkk => ⟨hbr kk hkk, (extractKeys_key_spec template kk hkk).1⟩)
      hinf
  · intro span hspan
    constructor
    · unfold locate at hspan
      by_cases hq : patOf k <:+: q
      · rw [if_pos hq] at hspan
        injection hspan with hsp
        rw [← hsp]
        exact hq
      · rw [if_neg hq] at hspan
        cases hspan
    · intro s
      unfold fillStep
      rw [hspan]

/-- Witness for C7 at a concrete input: the unlocated placeholder
remains literally in the filled template. -/
theorem claim_C7_witness :
    (("ip_address".data ∈ extractKeys exTemplate) ∧
      (∀ kk ∈ extractKeys exTemplate, ('[' : Char) ∉ kk) ∧
      locate (patOf ("ip_address".data)) exScenQ = none) ∧
    tokOf ("ip_address".data) <:+: fillTemplate exTemplate exScenQ :=
  ⟨⟨by decide, by decide, by decide⟩,
    (claim_C7 exTemplate exScenQ ("ip_address".data) (by decide)
      (by decide)).1 (by decide)⟩
